import Mathlib

/-!
Verification development for the financial-indicator pipeline: the canonical
dataset builder (src/ingest/csv_to_canonical.py), the statistics modules
(src/analysis/pbr_stats.py, roe_stats.py, sector_hhi.py) and the narrative
and accessor helpers (src/render/common.py).

Modelling conventions of the shallow embedding:
* YAML/JSON documents, pandas cells and Python runtime values are modelled by
  the inductive type `Yaml`; Python None and the pandas missing values NaN and
  NaT are all modelled by `Yaml.null`.
* Python floats are modelled by exact rationals `ℚ`; floating-point rounding
  is idealised away.  Every property below is about structure, counts or
  exact algebraic identities, not rounding.
* pandas to_numeric with coercion of errors is modelled by `toNumeric`; the
  modelled grammar of numeric strings covers an optional sign, digits and an
  optional decimal point.  Scientific notation and the textual inf and nan
  literals are outside the modelled grammar.
* pandas to_datetime with coercion of errors is modelled by `parseDate`,
  restricted to the YYYY-MM-DD string form used throughout the repository.
  A parsed date is encoded as the natural number y*10000 + m*100 + d, whose
  order agrees with chronological order.
* pandas sorts on several key columns with a stable lexicographic sort; the
  embedding uses a stable insertion sort.  Comparison of two index labels of
  distinct runtime types, on which pandas raises, is totalised by comparing a
  constructor rank, and two lists or two dictionaries compare as equal-rank;
  every input actually exercised uses string labels, where the embedded order
  agrees with the Python string order.
-/

mutual

/-- A YAML/JSON value.  `null` also stands for Python None and for the pandas
missing values NaN and NaT. -/
inductive Yaml where
  | null : Yaml
  | num (q : ℚ) : Yaml
  | str (s : String) : Yaml
  | list (xs : YList) : Yaml
  | dict (xs : YDict) : Yaml
  deriving DecidableEq, Repr

/-- A sequence of YAML values (the elements of a YAML list). -/
inductive YList where
  | nil : YList
  | cons (hd : Yaml) (tl : YList) : YList
  deriving DecidableEq, Repr

/-- The key-value pairs of a YAML mapping, in document order.  Python
dictionaries have unique keys; lookup returns the first match. -/
inductive YDict where
  | nil : YDict
  | cons (k : String) (v : Yaml) (tl : YDict) : YDict
  deriving DecidableEq, Repr

end

/-- The elements of a YAML list, as a Lean list. -/
def YList.toList : YList → List Yaml
  | .nil => []
  | .cons h t => h :: t.toList

/-- Build a YAML list node from a Lean list. -/
def YList.ofList : List Yaml → YList
  | [] => .nil
  | x :: xs => .cons x (YList.ofList xs)

/-- The key-value pairs of a YAML mapping, as a Lean list. -/
def YDict.toPairs : YDict → List (String × Yaml)
  | .nil => []
  | .cons k v t => (k, v) :: t.toPairs

/-- Build a YAML mapping node from a Lean list of pairs. -/
def YDict.ofPairs : List (String × Yaml) → YDict
  | [] => .nil
  | (k, v) :: xs => .cons k v (YDict.ofPairs xs)

/-- Shorthand for a YAML list built from a Lean list. -/
def Yaml.ofList (xs : List Yaml) : Yaml := .list (YList.ofList xs)

/-- Shorthand for a YAML mapping built from a Lean list of pairs. -/
def Yaml.ofPairs (xs : List (String × Yaml)) : Yaml := .dict (YDict.ofPairs xs)

/-- First-match lookup in a YAML mapping: the Python dict.get. -/
def YDict.lookup (k : String) : YDict → Option Yaml
  | .nil => none
  | .cons k' v t => if k' = k then some v else t.lookup k

/-- Python dict.get on a YAML value: none when the value is not a mapping or
the key is absent. -/
def Yaml.get? (d : Yaml) (k : String) : Option Yaml :=
  match d with
  | .dict xs => xs.lookup k
  | _ => none

/-- Python dict.get with a default value. -/
def Yaml.getD (d : Yaml) (k : String) (v : Yaml) : Yaml := (d.get? k).getD v

/-- Python truthiness of a YAML/runtime value: None, zero, the empty string,
the empty list and the empty mapping are falsy. -/
def Yaml.truthy : Yaml → Bool
  | .null => false
  | .num q => decide (q ≠ 0)
  | .str s => decide (s ≠ "")
  | .list .nil => false
  | .list _ => true
  | .dict .nil => false
  | .dict _ => true

/-- The Python expression a or b: b when a is falsy, a otherwise. -/
def pyOr (a b : Yaml) : Yaml := if a.truthy then a else b

/-- Python str() restricted to the cases the pipeline exercises: strings are
returned unchanged, None prints as None, and a number prints as its numeral
(exact only for integers; the constituent and financial codes of the
repository are strings or integers). -/
def pyStr : Yaml → String
  | .str s => s
  | .null => "None"
  | .num q => if q.den = 1 then toString q.num else toString q
  | .list _ => "<list>"
  | .dict _ => "<dict>"

/-- Whitespace recognised by the Python strip of this model. -/
def isSpaceChar (c : Char) : Bool :=
  decide (c = ' ' ∨ c = '\t' ∨ c = '\n' ∨ c = '\r')

/-- Drop leading whitespace characters. -/
def dropLeadingSpace : List Char → List Char
  | [] => []
  | c :: cs => if isSpaceChar c then dropLeadingSpace cs else c :: cs

/-- Strip whitespace from both ends of a character list. -/
def trimChars (cs : List Char) : List Char :=
  ((dropLeadingSpace cs).reverse |> dropLeadingSpace).reverse

/-- Python str.strip restricted to the common whitespace characters. -/
def pyStrip (s : String) : String := String.mk (trimChars s.data)

/-- Split a character list on a separator character (the separator is not
kept; n separators give n+1 groups). -/
def splitOnChar (sep : Char) : List Char → List (List Char)
  | [] => [[]]
  | c :: cs =>
    if c = sep then [] :: splitOnChar sep cs
    else
      match splitOnChar sep cs with
      | g :: gs => (c :: g) :: gs
      | [] => [[c]]

/-- Lexicographic comparison of character lists, the Python comparison of
strings by code point. -/
def charsLe : List Char → List Char → Bool
  | [], _ => true
  | _ :: _, [] => false
  | a :: as, b :: bs => if a = b then charsLe as bs else decide (a < b)

/-- Python string comparison. -/
def strLe (s t : String) : Bool := charsLe s.data t.data

/-- The numeric value of a list of decimal digit characters; none when the
list is empty or contains a non-digit. -/
def digitsVal (cs : List Char) : Option ℕ :=
  if cs.isEmpty then none
  else cs.foldl (fun acc c => acc.bind fun n =>
    if c.isDigit then some (10 * n + (c.toNat - 48)) else none) (some 0)

/-- Parse a decimal numeric string the way Python float() does on plain
decimal literals: surrounding whitespace, an optional sign, digits and an
optional decimal point. -/
def parseQ (s : String) : Option ℚ :=
  let t := trimChars s.data
  let neg : Bool := match t with | c :: _ => decide (c = '-') | [] => false
  let u : List Char :=
    match t with
    | c :: rest => if c = '-' ∨ c = '+' then rest else t
    | [] => t
  let mag : Option ℚ :=
    match splitOnChar '.' u with
    | [a] => (digitsVal a).map (fun n => (n : ℚ))
    | [a, b] =>
      if a = [] ∧ b = [] then none
      else
        let ia : Option ℕ := if a = [] then some 0 else digitsVal a
        let fb : Option ℚ :=
          if b = [] then some 0
          else (digitsVal b).map (fun n => (n : ℚ) / (10 : ℚ) ^ b.length)
        match ia, fb with
        | some i, some f => some ((i : ℚ) + f)
        | _, _ => none
    | _ => none
  mag.map (fun q => if neg then -q else q)

/-- pandas to_numeric with coercion of errors, applied to one cell: numbers
pass through, numeric strings are parsed, and everything else becomes
missing. -/
def toNumeric : Yaml → Option ℚ
  | .num q => some q
  | .str s => parseQ s
  | _ => none

/-- pandas to_datetime with coercion of errors, applied to one cell and
restricted to the YYYY-MM-DD form: the result is the natural number
y*10000 + m*100 + d, and every unparseable cell becomes missing. -/
def parseDate : Yaml → Option ℕ
  | .str s =>
    match splitOnChar '-' s.data with
    | [y, m, d] =>
      match digitsVal y, digitsVal m, digitsVal d with
      | some yv, some mv, some dv =>
        if 1 ≤ mv ∧ mv ≤ 12 ∧ 1 ≤ dv ∧ dv ≤ 31
        then some (yv * 10000 + mv * 100 + dv) else none
      | _, _, _ => none
    | _ => none
  | _ => none

/-- Constructor rank used to totalise comparisons between values of distinct
runtime types (pandas raises there; no claim depends on that case). -/
def yamlRank : Yaml → ℕ
  | .null => 0
  | .num _ => 1
  | .str _ => 2
  | .list _ => 3
  | .dict _ => 4

/-- Total comparison of YAML values: numbers and strings compare by their
usual orders, everything else by constructor rank. -/
def yamlLe (a b : Yaml) : Bool :=
  match a, b with
  | .num p, .num q => decide (p ≤ q)
  | .str s, .str t => strLe s t
  | _, _ => decide (yamlRank a ≤ yamlRank b)

/-- Stable insertion of an element into a sorted list: the element lands in
front of the first list entry it compares less-or-equal to, hence in front of
every equal entry. -/
def insertBy (le : α → α → Bool) (x : α) : List α → List α
  | [] => [x]
  | y :: ys => if le x y then x :: y :: ys else y :: insertBy le x ys

/-- Stable insertion sort, the embedding of the stable pandas sort_values. -/
def insertionSortBy (le : α → α → Bool) : List α → List α
  | [] => []
  | x :: xs => insertBy le x (insertionSortBy le xs)

/-- pandas drop_duplicates with keep equal to last, on the key extracted by
key: a row survives exactly when no later row shares its key. -/
def dropDupKeepLast (key : α → κ) [DecidableEq κ] : List α → List α
  | [] => []
  | x :: xs =>
    if xs.any (fun y => decide (key y = key x))
    then dropDupKeepLast key xs
    else x :: dropDupKeepLast key xs

/-! ## Canonical builder (src/ingest/csv_to_canonical.py) -/

/-- A constituent record as produced by one loop iteration of
_normalize_constituents: index (after the or-chain of fallbacks), stripped
string code, name, sector and raw weight. -/
structure ConsRow where
  index : Yaml
  code : String
  name : Yaml
  sector : Yaml
  weight : Yaml
  deriving DecidableEq, Repr

/-- A financial record as produced by _normalize_financials, with the date
column already passed through to_datetime (the function converts the column
right after building the frame). -/
structure FinRow where
  index : Yaml
  code : String
  date : Option ℕ
  pbr : Yaml
  roe : Yaml
  dy : Yaml
  market_cap : Yaml
  weight : Yaml
  deriving DecidableEq, Repr

/-- One constituent entry: non-mapping entries are silently dropped; the
index falls back through the or-chain entry index, group name, fixed default;
the code is stringified and stripped; a missing sector key defaults to
Unknown; a missing weight key defaults to missing. -/
def consRowOfEntry (idxName : Option String) (entry : Yaml) : Option ConsRow :=
  match entry with
  | .dict _ =>
    some {
      index := pyOr (entry.getD "index" .null)
        (pyOr (match idxName with | some n => .str n | none => .null)
          (.str "yomiuri333")),
      code := pyStrip (pyStr (entry.getD "code" (.str ""))),
      name := entry.getD "name" (.str ""),
      sector := entry.getD "sector" (.str "Unknown"),
      weight := entry.getD "weight" .null }
  | _ => none

/-- One group of the constituents document: a null group is skipped, a
mapping with a records key contributes that key, and anything that is not a
list at that point is a validation error. -/
def consGroupRows (idxName : Option String) (entries : Yaml) :
    Except String (List ConsRow) :=
  if entries = .null then .ok []
  else
    let candidate :=
      match entries.get? "records" with
      | some r => r
      | none => entries
    match candidate with
    | .list es => .ok (es.toList.filterMap (consRowOfEntry idxName))
    | _ => .error "Constituent entries must be provided as a list"

/-- The groups of the constituents document: a mapping contributes its pairs,
anything else is one anonymous group. -/
def consPairs (raw : Yaml) : List (Option String × Yaml) :=
  match raw with
  | .dict xs => xs.toPairs.map (fun p => (some p.1, p.2))
  | _ => [(none, raw)]

/-- The fillna applied to the index column after the frame is built (the
or-chain never yields null, so this is the identity in practice). -/
def fillIndexDefault (r : ConsRow) : ConsRow :=
  if r.index = .null then { r with index := .str "yomiuri333" } else r

/-- _normalize_constituents: flatten all groups and fail when no usable
record is found. -/
def normalize_constituents (raw : Yaml) : Except String (List ConsRow) :=
  match (consPairs raw).mapM (fun p => consGroupRows p.1 p.2) with
  | .error e => .error e
  | .ok groups =>
    let rows := groups.join
    if rows.isEmpty then .error "No constituent records found"
    else .ok (rows.map fillIndexDefault)

/-- Python setdefault of the index key on a grouped financial entry: the
group name is inserted only when the entry has no index key. -/
def finSetDefaultIndex (entry : Yaml) (k : String) : Yaml :=
  match entry with
  | .dict xs =>
    if (xs.lookup "index").isSome then entry
    else .dict (YDict.ofPairs (xs.toPairs ++ [("index", .str k)]))
  | _ => entry

/-- One group of a grouped-by-index financials mapping: non-list groups and
non-mapping items are silently dropped. -/
def finGroupItems (p : String × Yaml) : List Yaml :=
  match p.2 with
  | .list items =>
    items.toList.filterMap (fun it =>
      match it with
      | .dict _ => some (finSetDefaultIndex it p.1)
      | _ => none)
  | _ => []

/-- The flat entry list of the financials document: a mapping with a records
key contributes that key (which must be a list), any other mapping is
treated as grouped by index, a list is taken as is, and anything else is a
validation error. -/
def finEntries (raw : Yaml) : Except String (List Yaml) :=
  match raw with
  | .dict xs =>
    match xs.lookup "records" with
    | some (.list es) => .ok es.toList
    | some _ => .error "Financial records must be provided as a list"
    | none => .ok ((xs.toPairs.map finGroupItems).join)
  | .list es => .ok es.toList
  | _ => .error "Financial records must be provided as a list"

/-- One financial entry: non-mapping entries are silently dropped; a missing
index key (not a null value) defaults to the fixed index name; the code is
stringified and stripped; the date is parsed by to_datetime; the value
columns keep their raw cells. -/
def finRowOfEntry (entry : Yaml) : Option FinRow :=
  match entry with
  | .dict _ =>
    some {
      index := entry.getD "index" (.str "yomiuri333"),
      code := pyStrip (pyStr (entry.getD "code" (.str ""))),
      date := parseDate (entry.getD "date" .null),
      pbr := entry.getD "pbr" .null,
      roe := entry.getD "roe" .null,
      dy := entry.getD "dy" .null,
      market_cap := entry.getD "market_cap" .null,
      weight := entry.getD "weight" .null }
  | _ => none

/-- _normalize_financials: a missing or empty file gives the empty frame;
otherwise the entries are flattened and normalised. -/
def normalize_financials (raw : Option Yaml) : Except String (List FinRow) :=
  match raw with
  | none => .ok []
  | some .null => .ok []
  | some y =>
    match finEntries y with
    | .error e => .error e
    | .ok entries => .ok (entries.filterMap finRowOfEntry)

/-- The deduplication key of build_canonical: the pair of index and code. -/
def finKey (f : FinRow) : Yaml × String := (f.index, f.code)

/-- The sort key of the deduplication pass: index, then code, then date with
missing dates ordered last (na_position last). -/
def finLe (a b : FinRow) : Bool :=
  if a.index = b.index then
    if a.code = b.code then
      match a.date, b.date with
      | none, none => true
      | none, some _ => false
      | some _, none => true
      | some x, some y => decide (x ≤ y)
    else strLe a.code b.code
  else yamlLe a.index b.index

/-- A row of the canonical dataset: the left join of a constituent row with
its deduplicated financial row, numeric columns coerced, the date kept in
parsed form (the final strftime only reformats it as a string). -/
structure CanonicalRow where
  index : Yaml
  code : String
  name : Yaml
  sector : Yaml
  weight : Option ℚ
  date : Option ℕ
  pbr : Option ℚ
  roe : Option ℚ
  dy : Option ℚ
  market_cap : Option ℚ
  deriving DecidableEq, Repr

/-- The left-join combination of one constituent row with its matching
deduplicated financial row, followed by the weight fillna (constituent
weight takes precedence, the financial weight fills a missing one, both
still raw at that point) and the numeric coercion of the value columns. -/
def mergeRow (c : ConsRow) (f? : Option FinRow) : CanonicalRow :=
  let finW : Yaml := match f? with | some f => f.weight | none => .null
  let wRaw : Yaml := if c.weight = .null then finW else c.weight
  { index := c.index,
    code := c.code,
    name := c.name,
    sector := c.sector,
    weight := toNumeric wRaw,
    date := f?.bind (fun f => f.date),
    pbr := match f? with | some f => toNumeric f.pbr | none => none,
    roe := match f? with | some f => toNumeric f.roe | none => none,
    dy := match f? with | some f => toNumeric f.dy | none => none,
    market_cap := match f? with | some f => toNumeric f.market_cap | none => none }

/-- The final sort key of the canonical dataset: index, then code. -/
def rowLe (a b : CanonicalRow) : Bool :=
  if a.index = b.index then strLe a.code b.code else yamlLe a.index b.index

/-- build_canonical: normalise both documents, deduplicate the financial
records (stable sort by index, code and date with missing dates last, then
keep the last row per index and code pair; the branch for a frame without a
date column is dead code, because normalisation always creates the column on
a non-empty frame, and an empty frame aborts the merge), left-join the
constituents against them, coerce the numeric columns and sort the result by
index and code.  An empty financial frame has no key columns, so the pandas
merge raises a KeyError. -/
def build_canonical (consRaw : Yaml) (finsRaw : Option Yaml) :
    Except String (List CanonicalRow) :=
  match normalize_constituents consRaw with
  | .error e => .error e
  | .ok cons =>
    match normalize_financials finsRaw with
    | .error e => .error e
    | .ok fins =>
      if fins.isEmpty then
        .error "KeyError: index"
      else
        let finsDedup := dropDupKeepLast finKey (insertionSortBy finLe fins)
        let merged := cons.map (fun c =>
          mergeRow c (finsDedup.find?
            (fun f => decide (f.index = c.index ∧ f.code = c.code))))
        .ok (insertionSortBy rowLe merged)

/-! ## Statistics modules (src/analysis) -/

/-- A row of a table handed to a statistics module, restricted to the columns
the three modules read.  Column presence is tracked at the table level (the
cols field of ATable); a field whose column is absent from cols is never read
by the modules, which check cols before touching any cell. -/
structure ARow where
  index : Yaml
  pbr : Yaml
  roe : Yaml
  sector : Yaml
  weight : Yaml
  deriving DecidableEq, Repr

/-- A pandas DataFrame handed to a statistics module: its set of column
names, and its rows. -/
structure ATable where
  cols : List String
  rows : List ARow
  deriving DecidableEq, Repr

/-- The ways a statistics module fails.  missingColumn models the Python
ValueError raised by the explicit column checks (the data-validation error);
attributeError models the AttributeError that escapes _resolve_weights when
the table has no weight column at all, because to_numeric of the scalar None
yields a bare float with no notna method. -/
inductive AErr where
  | missingColumn (c : String)
  | attributeError
  deriving DecidableEq, Repr

/-- The group keys of a pandas groupby on the index column: distinct non-null
index values in ascending order (pandas drops null group keys). -/
def groupKeys (t : ATable) : List Yaml :=
  insertionSortBy yamlLe
    ((t.rows.filterMap (fun r => if r.index = .null then none else some r.index)).dedup)

/-- The rows of one groupby group, in original order. -/
def groupRows (t : ATable) (k : Yaml) : List ARow :=
  t.rows.filter (fun r => decide (r.index = k))

/-- Ascending sort of rationals (used by median, quantile and top-10). -/
def sortQ (l : List ℚ) : List ℚ := insertionSortBy (fun a b => decide (a ≤ b)) l

/-- pandas Series.median: the middle element of the sorted values, or the
mean of the two middle elements; none on an empty series. -/
def medianQ (l : List ℚ) : Option ℚ :=
  let s := sortQ l
  let n := s.length
  if n = 0 then none
  else if n % 2 = 1 then some (s.getD (n / 2) 0)
  else some ((s.getD (n / 2 - 1) 0 + s.getD (n / 2) 0) / 2)

/-- pandas Series.quantile with linear interpolation: the value at fractional
position p * (n - 1) of the sorted series. -/
def quantileLinear (l : List ℚ) (p : ℚ) : Option ℚ :=
  let s := sortQ l
  let n := s.length
  if n = 0 then none
  else
    let h : ℚ := p * ((n : ℚ) - 1)
    let i : ℕ := h.floor.toNat
    let frac : ℚ := h - (i : ℚ)
    if i + 1 < n then some (s.getD i 0 + frac * (s.getD (i + 1) 0 - s.getD i 0))
    else some (s.getD (n - 1) 0)

/-- The non-missing values of the coerced pbr column of a group, in row
order (the module coerces the column, groups by index and drops missing
values). -/
def pbrValues (rows : List ARow) : List ℚ := rows.filterMap (fun r => toNumeric r.pbr)

/-- The non-missing values of the coerced roe column of a group. -/
def roeValues (rows : List ARow) : List ℚ := rows.filterMap (fun r => toNumeric r.roe)

/-- The output of compute_pbr_stats: each metric maps every group key to its
value, associated in key order. -/
structure PbrMetrics where
  lt1 : List (Yaml × Option ℚ)
  mean : List (Yaml × Option ℚ)
  median : List (Yaml × Option ℚ)
  count : List (Yaml × ℕ)
  deriving DecidableEq, Repr

/-- compute_pbr_stats: per index, the count of non-missing pbr values, the
ratio of values below one, the mean and the median; a group with no
observations reports none for the derived statistics and zero for count. -/
def compute_pbr_stats (t : ATable) : Except AErr PbrMetrics :=
  if "index" ∉ t.cols then .error (.missingColumn "index")
  else if "pbr" ∉ t.cols then .error (.missingColumn "pbr")
  else .ok {
    lt1 := (groupKeys t).map (fun k =>
      (k,
        let s := pbrValues (groupRows t k)
        if s.length = 0 then none
        else some ((s.countP (fun x => decide (x < 1)) : ℚ) / (s.length : ℚ)))),
    mean := (groupKeys t).map (fun k =>
      (k,
        let s := pbrValues (groupRows t k)
        if s.length = 0 then none else some (s.sum / (s.length : ℚ)))),
    median := (groupKeys t).map (fun k =>
      (k,
        let s := pbrValues (groupRows t k)
        if s.length = 0 then none else medianQ s)),
    count := (groupKeys t).map (fun k => (k, (pbrValues (groupRows t k)).length)) }

/-- The output of compute_roe_stats; the quantiles mapping with keys 25, 50
and 75 is represented by three fields. -/
structure RoeMetrics where
  median : List (Yaml × Option ℚ)
  q25 : List (Yaml × Option ℚ)
  q50 : List (Yaml × Option ℚ)
  q75 : List (Yaml × Option ℚ)
  count : List (Yaml × ℕ)
  deriving DecidableEq, Repr

/-- compute_roe_stats: per index, the count of non-missing roe values, the
median and the linearly interpolated quartiles; a group with no observations
reports none for each statistic. -/
def compute_roe_stats (t : ATable) : Except AErr RoeMetrics :=
  if "index" ∉ t.cols then .error (.missingColumn "index")
  else if "roe" ∉ t.cols then .error (.missingColumn "roe")
  else .ok {
    median := (groupKeys t).map (fun k =>
      (k,
        let s := roeValues (groupRows t k)
        if s.length = 0 then none else medianQ s)),
    q25 := (groupKeys t).map (fun k =>
      (k,
        let s := roeValues (groupRows t k)
        if s.length = 0 then none else quantileLinear s (1/4))),
    q50 := (groupKeys t).map (fun k =>
      (k,
        let s := roeValues (groupRows t k)
        if s.length = 0 then none else quantileLinear s (1/2))),
    q75 := (groupKeys t).map (fun k =>
      (k,
        let s := roeValues (groupRows t k)
        if s.length = 0 then none else quantileLinear s (3/4))),
    count := (groupKeys t).map (fun k => (k, (roeValues (groupRows t k)).length)) }

/-- _resolve_weights on one group: coerce the weight column; when any value
is present, fill the missing ones with zero, otherwise give every row weight
one; when the total is not positive, fall back to weight one per row; divide
by the total. -/
def resolve_weights (rows : List ARow) : List ℚ :=
  let ws := rows.map (fun r => toNumeric r.weight)
  let filled :=
    if ws.any (fun w => w.isSome) then ws.map (fun w => w.getD 0)
    else rows.map (fun _ => (1 : ℚ))
  let total := filled.sum
  let base := if total ≤ 0 then rows.map (fun _ => (1 : ℚ)) else filled
  let tot2 := if total ≤ 0 then (rows.length : ℚ) else total
  base.map (fun w => w / tot2)

/-- fillna Unknown on the sector column. -/
def sectorFill (v : Yaml) : Yaml := if v = .null then .str "Unknown" else v

/-- The sector labels of a group after fillna, in row order. -/
def sectorsOf (rows : List ARow) : List Yaml := rows.map (fun r => sectorFill r.sector)

/-- The Herfindahl-Hirschman index of a group: resolved weights are grouped
by sector label and the squared per-sector sums are added. -/
def hhiOf (rows : List ARow) : ℚ :=
  let w := resolve_weights rows
  let pairs := (sectorsOf rows).zip w
  (((sectorsOf rows).dedup).map (fun s =>
    (((pairs.filter (fun p => decide (p.1 = s))).map Prod.snd).sum) ^ 2)).sum

/-- The top-10 concentration of a group: the sum of the ten largest resolved
weights. -/
def top10Of (rows : List ARow) : ℚ :=
  ((insertionSortBy (fun a b : ℚ => decide (b ≤ a)) (resolve_weights rows)).take 10).sum

/-- The output of compute_concentration_metrics. -/
structure HhiMetrics where
  hhi : List (Yaml × ℚ)
  top10_weight : List (Yaml × ℚ)
  constituents : List (Yaml × ℕ)
  deriving DecidableEq, Repr

/-- compute_concentration_metrics: validate the index and sector columns,
then per index report the sector HHI, the top-10 concentration and the row
count.  The weight column is not validated: when it is absent and at least
one group exists, _resolve_weights raises an AttributeError instead. -/
def compute_concentration_metrics (t : ATable) : Except AErr HhiMetrics :=
  if "index" ∉ t.cols then .error (.missingColumn "index")
  else if "sector" ∉ t.cols then .error (.missingColumn "sector")
  else if "weight" ∉ t.cols ∧ groupKeys t ≠ [] then .error .attributeError
  else .ok {
    hhi := (groupKeys t).map (fun k => (k, hhiOf (groupRows t k))),
    top10_weight := (groupKeys t).map (fun k => (k, top10Of (groupRows t k))),
    constituents := (groupKeys t).map (fun k => (k, (groupRows t k).length)) }

/-! ## Narrative derivation (src/render/common.py, derive_logic_summary) -/

/-- A metrics document as consumed by derive_logic_summary: metric name to
index name to numeric value or null.  The four documents come from the JSON
files written by the statistics modules, whose leaves are numbers or null. -/
abbrev MDoc := List (String × List (String × Option ℚ))

/-- First-match association lookup (the Python dict.get of a metrics
document). -/
def mlookup (k : String) : List (String × α) → Option α
  | [] => none
  | (x, v) :: xs => if x = k then some v else mlookup k xs

/-- safe_get over two keys: none when either level is absent or the leaf is
null (the Python helper returns None in each of those cases). -/
def safe_get (d : MDoc) (k1 k2 : String) : Option ℚ :=
  match mlookup k1 d with
  | none => none
  | some inner => (mlookup k2 inner).join

/-- One narrative bullet, abstracted from its Japanese template string to a
tagged constructor carrying the numbers the string formats (two bullets are
equal exactly when the rendered strings are). -/
inductive Bullet where
  | pbrStrength (diff : ℚ)
  | pbrWeakness (diff : ℚ)
  | pbrCaution
  | roeStrength (y t : ℚ)
  | roeWeakness (diff : ℚ)
  | roeCaution
  | dyStrength (diff : ℚ)
  | dyWeakness (diff : ℚ)
  | dyCaution
  | hhiWeakness (y t : ℚ)
  | hhiStrength (y : ℚ)
  | hhiCaution
  | top10Caution
  deriving DecidableEq, Repr

/-- The metric family a bullet talks about: 0 pbr, 1 roe, 2 dy, 3 hhi,
4 top-10 concentration. -/
def Bullet.fam : Bullet → ℕ
  | .pbrStrength _ => 0
  | .pbrWeakness _ => 0
  | .pbrCaution => 0
  | .roeStrength _ _ => 1
  | .roeWeakness _ => 1
  | .roeCaution => 1
  | .dyStrength _ => 2
  | .dyWeakness _ => 2
  | .dyCaution => 2
  | .hhiWeakness _ _ => 3
  | .hhiStrength _ => 3
  | .hhiCaution => 3
  | .top10Caution => 4

/-- The three buckets returned by derive_logic_summary. -/
structure Summary where
  strengths : List Bullet
  weaknesses : List Bullet
  cautions : List Bullet
  deriving DecidableEq, Repr

/-- The PBR block of derive_logic_summary: with both ratios present, a
strictly positive difference is a strength and any other difference a
weakness; otherwise a caution. -/
def pbrBullets (pbr : MDoc) : List Bullet × List Bullet × List Bullet :=
  match safe_get pbr "lt1" "yomiuri333", safe_get pbr "lt1" "topix" with
  | some y, some t =>
    if y - t > 0 then ([.pbrStrength (y - t)], [], [])
    else ([], [.pbrWeakness (y - t)], [])
  | _, _ => ([], [], [.pbrCaution])

/-- The ROE block: a non-negative difference of medians is a strength, a
negative one a weakness; otherwise a caution. -/
def roeBullets (roe : MDoc) : List Bullet × List Bullet × List Bullet :=
  match safe_get roe "median" "yomiuri333", safe_get roe "median" "topix" with
  | some y, some t =>
    if y - t ≥ 0 then ([.roeStrength y t], [], [])
    else ([], [.roeWeakness (y - t)], [])
  | _, _ => ([], [], [.roeCaution])

/-- The dividend-yield block: a non-negative difference of means is a
strength, a negative one a weakness; otherwise a caution. -/
def dyBullets (dy : MDoc) : List Bullet × List Bullet × List Bullet :=
  match safe_get dy "mean" "yomiuri333", safe_get dy "mean" "topix" with
  | some y, some t =>
    if y - t ≥ 0 then ([.dyStrength (y - t)], [], [])
    else ([], [.dyWeakness (y - t)], [])
  | _, _ => ([], [], [.dyCaution])

/-- The HHI block: with the primary value present, it is a weakness only
when the benchmark value is also present and strictly smaller, and a
strength otherwise (in particular when the benchmark value is missing); a
missing primary value is a caution. -/
def hhiBullets (hhi : MDoc) : List Bullet × List Bullet × List Bullet :=
  match safe_get hhi "hhi" "yomiuri333" with
  | some y =>
    match safe_get hhi "hhi" "topix" with
    | some t =>
      if y > t then ([], [.hhiWeakness y t], [])
      else ([.hhiStrength y], [], [])
    | none => ([.hhiStrength y], [], [])
  | none => ([], [], [.hhiCaution])

/-- The extra caution emitted when the top-10 concentration weight of the
primary index is missing. -/
def top10Bullets (hhi : MDoc) : List Bullet :=
  if (safe_get hhi "top10_weight" "yomiuri333").isNone then [.top10Caution] else []

/-- derive_logic_summary: the four blocks run in order and their bullets are
appended into the three buckets, followed by the top-10 caution. -/
def derive_logic_summary (pbr roe dy hhi : MDoc) : Summary :=
  let p := pbrBullets pbr
  let r := roeBullets roe
  let d := dyBullets dy
  let h := hhiBullets hhi
  { strengths := p.1 ++ r.1 ++ d.1 ++ h.1,
    weaknesses := p.2.1 ++ r.2.1 ++ d.2.1 ++ h.2.1,
    cautions := p.2.2 ++ r.2.2 ++ d.2.2 ++ h.2.2 ++ top10Bullets hhi }

/-! ## MissingValue and MetricAccessor (src/render/common.py) -/

/-- A runtime value reachable while chasing attribute or item accesses from
a wrap_metrics accessor: a MetricAccessor wrapping a mapping, the
MissingValue sentinel, or a plain leaf value (a non-mapping, non-null JSON
value returned unchanged). -/
inductive PyVal where
  | accessor (d : YDict)
  | missing
  | leaf (v : Yaml)
  deriving DecidableEq, Repr

/-- wrap_metrics: a null or absent document wraps the empty mapping. -/
def wrap_metrics (d : Option YDict) : PyVal := .accessor (d.getD .nil)

/-- One attribute or item access.  On an accessor this is the data lookup of
MetricAccessor: an absent key or a null value gives MissingValue, a nested
mapping is wrapped, any other value is returned unchanged.  On MissingValue
every access returns MissingValue.  On a plain leaf the access is modelled
as raising (Python raises AttributeError or TypeError for data accesses on
numbers, lists and the like; attributes built into the leaf type are outside
the data-access model). -/
def pyAccess : PyVal → String → Except Unit PyVal
  | .accessor d, k =>
    match d.lookup k with
    | some (.dict xs) => .ok (.accessor xs)
    | some .null => .ok .missing
    | none => .ok .missing
    | some v => .ok (.leaf v)
  | .missing, _ => .ok .missing
  | .leaf _, _ => .error ()

/-- A finite chain of attribute or item accesses, applied left to right. -/
def chainAccess : PyVal → List String → Except Unit PyVal
  | v, [] => .ok v
  | v, k :: ks =>
    match pyAccess v k with
    | .ok v' => chainAccess v' ks
    | .error e => .error e

/-- Python truthiness of an accessor-level value: MissingValue defines
its bool as False; a MetricAccessor has no bool of its own and is truthy; a
leaf keeps the truthiness of its value. -/
def pyValTruthy : PyVal → Bool
  | .missing => false
  | .accessor _ => true
  | .leaf v => v.truthy

/-- Python str of an accessor-level value: MissingValue stringifies to the
empty string; the accessor case falls back to the default object repr, which
no template relies on and which the model abbreviates. -/
def pyValStr : PyVal → String
  | .missing => ""
  | .accessor _ => "<MetricAccessor>"
  | .leaf v => pyStr v

/-! ## Auxiliary definitions for the substitution statement of claim C9 -/

/-- Replace the element at position i (no change when the position is out of
range). -/
def modifyAt (i : ℕ) (f : α → α) : List α → List α
  | [] => []
  | x :: xs =>
    match i with
    | 0 => f x :: xs
    | n + 1 => x :: modifyAt n f xs

/-- Python assignment of one key of an association list: an existing key
keeps its position, a new key is appended. -/
def setPairsField : List (String × Yaml) → String → Yaml → List (String × Yaml)
  | [], c, v => [(c, v)]
  | (k, w) :: xs, c, v =>
    if k = c then (c, v) :: xs else (k, w) :: setPairsField xs c v

/-- Python assignment of one key of a mapping entry; non-mapping values are
left unchanged. -/
def setDictField (e : Yaml) (c : String) (v : Yaml) : Yaml :=
  match e with
  | .dict xs => .dict (YDict.ofPairs (setPairsField xs.toPairs c v))
  | _ => e

/-- The numeric value a canonical row receives in one financial column: the
to_numeric coercion of that raw cell of the deduplicated financial row with
the same index and code, or missing when no such row exists. -/
def matchedNumeric (fins : List FinRow) (r : CanonicalRow) (fld : FinRow → Yaml) :
    Option ℚ :=
  match (dropDupKeepLast finKey (insertionSortBy finLe fins)).find?
      (fun f => decide (f.index = r.index ∧ f.code = r.code)) with
  | some f => toNumeric (fld f)
  | none => none

/-- The numeric value a canonical row receives in the weight column: the
to_numeric coercion of the constituent weight, with the raw weight of the
matching deduplicated financial row filling a missing constituent weight
(the fillna runs on raw cells, before the coercion). -/
def mergedWeight (fins : List FinRow) (r : CanonicalRow) (cw : Yaml) : Option ℚ :=
  toNumeric (if cw = .null then
    (match (dropDupKeepLast finKey (insertionSortBy finLe fins)).find?
        (fun f => decide (f.index = r.index ∧ f.code = r.code)) with
     | some f => f.weight
     | none => .null)
  else cw)

/-! ## Concrete documents and tables used by counterexamples and witnesses -/

/-- Constituents document of the C1 failing input: one member of one index. -/
def c1ConsDoc : Yaml := Yaml.ofPairs [("yomiuri333", Yaml.ofList [
  Yaml.ofPairs [("code", .str "1001"), ("name", .str "Alpha"),
    ("sector", .str "X"), ("weight", .num 1)]])]

/-- Financials document of the C1 failing input: two records for the same
index and code pair, a dated one with pbr 0.8 and an undated one with
pbr 9.9. -/
def c1FinsDoc : Yaml := Yaml.ofList [
  Yaml.ofPairs [("index", .str "yomiuri333"), ("code", .str "1001"),
    ("date", .str "2023-12-31"), ("pbr", .num (4/5))],
  Yaml.ofPairs [("index", .str "yomiuri333"), ("code", .str "1001"),
    ("date", .null), ("pbr", .num (99/10))]]

/-- PBR metrics document with an exact tie between the two indices. -/
def c2TiePbr : MDoc := [("lt1", [("yomiuri333", some (1/2)), ("topix", some (1/2))])]

/-- ROE metrics document with an exact tie. -/
def c2TieRoe : MDoc := [("median", [("yomiuri333", some 5), ("topix", some 5)])]

/-- Yield metrics document with an exact tie. -/
def c2TieDy : MDoc := [("mean", [("yomiuri333", some 2), ("topix", some 2)])]

/-- Concentration metrics document with an exact tie and a present top-10
weight. -/
def c2TieHhi : MDoc := [("hhi", [("yomiuri333", some (1/2)), ("topix", some (1/2))]),
  ("top10_weight", [("yomiuri333", some 1)])]

/-- PBR metrics document with both values present. -/
def c3Pbr : MDoc := [("lt1", [("yomiuri333", some (3/5)), ("topix", some (1/2))])]

/-- ROE metrics document with both values present. -/
def c3Roe : MDoc := [("median", [("yomiuri333", some 5), ("topix", some 4)])]

/-- Yield metrics document with both values present. -/
def c3Dy : MDoc := [("mean", [("yomiuri333", some 2), ("topix", some 1)])]

/-- Concentration metrics document whose hhi value is present for the
primary index but missing for the benchmark. -/
def c3Hhi : MDoc := [("hhi", [("yomiuri333", some (3/10))]),
  ("top10_weight", [("yomiuri333", some 1)])]

/-- Constituents document with the same index and code pair listed twice. -/
def c4DupConsDoc : Yaml := Yaml.ofPairs [("yomiuri333", Yaml.ofList [
  Yaml.ofPairs [("code", .str "1001"), ("name", .str "A"),
    ("sector", .str "X"), ("weight", .num 1)],
  Yaml.ofPairs [("code", .str "1001"), ("name", .str "B"),
    ("sector", .str "Y"), ("weight", .num 2)]])]

/-- A small financials document matching code 1001. -/
def c4FinsDoc : Yaml := Yaml.ofList [
  Yaml.ofPairs [("index", .str "yomiuri333"), ("code", .str "1001"),
    ("date", .str "2024-01-01"), ("pbr", .num 1)]]

/-- A well-formed constituents document with two distinct pairs. -/
def c4GoodConsDoc : Yaml := Yaml.ofPairs [
  ("topix", Yaml.ofList [Yaml.ofPairs [("code", .str "2002"),
    ("name", .str "B"), ("sector", .str "Y"), ("weight", .num 2)]]),
  ("yomiuri333", Yaml.ofList [Yaml.ofPairs [("code", .str "1001"),
    ("name", .str "A"), ("sector", .str "X"), ("weight", .num 1)]])]

/-- A two-row table of one group: one row with a missing pbr and a present
roe, one with a present pbr, an unparseable roe and a missing sector and
weight. -/
def c5T : ATable := {
  cols := ["index", "pbr", "roe", "sector", "weight"],
  rows := [
    { index := Yaml.str "a", pbr := Yaml.null, roe := Yaml.num 2,
      sector := Yaml.null, weight := Yaml.num 1 },
    { index := Yaml.str "a", pbr := Yaml.num 1, roe := Yaml.str "x",
      sector := Yaml.str "S", weight := Yaml.null }] }

/-- A three-row table of one group with two sectors, one of them reached by
the Unknown bucket, and stated weights. -/
def c6T : ATable := {
  cols := ["index", "sector", "weight"],
  rows := [
    { index := Yaml.str "a", pbr := Yaml.null, roe := Yaml.null,
      sector := Yaml.str "S", weight := Yaml.num (1/4) },
    { index := Yaml.str "a", pbr := Yaml.null, roe := Yaml.null,
      sector := Yaml.null, weight := Yaml.num (1/4) },
    { index := Yaml.str "a", pbr := Yaml.null, roe := Yaml.null,
      sector := Yaml.str "S", weight := Yaml.num (1/2) }] }

/-- One group of two rows whose stated weights are partly missing. -/
def c7Rows : List ARow := [
  { index := Yaml.str "a", pbr := Yaml.null, roe := Yaml.null,
    sector := Yaml.str "S", weight := Yaml.num 3 },
  { index := Yaml.str "a", pbr := Yaml.null, roe := Yaml.null,
    sector := Yaml.str "T", weight := Yaml.null }]

/-- A table with the index and sector columns but no weight column. -/
def c8NoWeightT : ATable := { cols := ["index", "sector"], rows := [] }

/-- A table with no columns at all. -/
def c8EmptyT : ATable := { cols := [], rows := [] }

/-- Constituents document for the C9 witness. -/
def c9ConsDoc : Yaml := Yaml.ofPairs [("yomiuri333", Yaml.ofList [
  Yaml.ofPairs [("code", .str "1001"), ("name", .str "A"),
    ("sector", .str "X"), ("weight", .num 1)]])]

/-- Financial entry list for the C9 witness: one record whose pbr cell holds
the unparseable string abc. -/
def c9Entries : List Yaml := [
  Yaml.ofPairs [("index", .str "yomiuri333"), ("code", .str "1001"),
    ("date", .str "2024-01-01"), ("pbr", .str "abc"), ("roe", .num 2)]]

/-! ## Helper lemmas -/

theorem charsLe_total (a b : List Char) : charsLe a b = true ∨ charsLe b a = true := by
  induction a generalizing b with
  | nil => simp [charsLe]
  | cons x xs ih =>
    cases b with
    | nil => simp [charsLe]
    | cons y ys =>
      by_cases h : x = y
      · subst h
        simpa [charsLe] using ih ys
      · have h' : ¬ y = x := fun e => h e.symm
        rcases lt_or_gt_of_ne h with hlt | hgt
        · left
          simp [charsLe, h, hlt]
        · right
          simp [charsLe, h', hgt]

theorem strLe_total (s t : String) : strLe s t = true ∨ strLe t s = true :=
  charsLe_total s.data t.data

theorem yamlLe_total (a b : Yaml) : yamlLe a b = true ∨ yamlLe b a = true := by
  cases a <;> cases b <;> simp [yamlLe, yamlRank] <;>
    first
      | exact le_total _ _
      | exact strLe_total _ _
      | omega

theorem insertBy_perm (le : α → α → Bool) (x : α) (l : List α) :
    List.Perm (insertBy le x l) (x :: l) := by
  induction l with
  | nil => simp [insertBy]
  | cons y ys ih =>
    simp only [insertBy]
    by_cases h : le x y = true
    · simp [h]
    · simp only [h, Bool.false_eq_true, if_false]
      exact ((ih.cons y).trans (List.Perm.swap x y ys))

theorem insertionSortBy_perm (le : α → α → Bool) (l : List α) :
    List.Perm (insertionSortBy le l) l := by
  induction l with
  | nil => simp [insertionSortBy]
  | cons x xs ih =>
    exact (insertBy_perm le x (insertionSortBy le xs)).trans (ih.cons x)

theorem chain_insertBy (le : α → α → Bool)
    (htot : ∀ a b, le a b = true ∨ le b a = true) (x : α) (l : List α)
    (hl : l.Chain' (fun a b => le a b = true)) :
    (insertBy le x l).Chain' (fun a b => le a b = true) := by
  induction l with
  | nil => simp [insertBy]
  | cons y ys ih =>
    simp only [insertBy]
    by_cases h : le x y = true
    · simp only [h, if_true]
      exact List.chain'_cons.mpr ⟨h, hl⟩
    · have hyx : le y x = true := (htot x y).resolve_left h
      have htail := ih hl.tail
      simp only [h, Bool.false_eq_true, if_false]
      cases ys with
      | nil => exact List.chain'_pair.mpr hyx
      | cons z zs =>
        simp only [insertBy] at htail ⊢
        by_cases hz : le x z = true
        · simp only [hz, if_true] at htail ⊢
          exact List.chain'_cons.mpr ⟨hyx, htail⟩
        · simp only [hz, Bool.false_eq_true, if_false] at htail ⊢
          exact List.chain'_cons.mpr ⟨(List.chain'_cons.mp hl).1, htail⟩

theorem insertionSortBy_chain (le : α → α → Bool)
    (htot : ∀ a b, le a b = true ∨ le b a = true) (l : List α) :
    (insertionSortBy le l).Chain' (fun a b => le a b = true) := by
  induction l with
  | nil => simp [insertionSortBy]
  | cons x xs ih => exact chain_insertBy le htot x _ ih

theorem dropDupKeepLast_sublist (key : α → κ) [DecidableEq κ] (l : List α) :
    List.Sublist (dropDupKeepLast key l) l := by
  induction l with
  | nil => simp [dropDupKeepLast]
  | cons x xs ih =>
    simp only [dropDupKeepLast]
    by_cases h : xs.any (fun y => decide (key y = key x)) = true
    · simpa [h] using ih.cons x
    · simpa [h] using ih.cons₂ x

theorem dropDupKeepLast_keys_nodup (key : α → κ) [DecidableEq κ] (l : List α) :
    ((dropDupKeepLast key l).map key).Nodup := by
  induction l with
  | nil => simp [dropDupKeepLast]
  | cons x xs ih =>
    simp only [dropDupKeepLast]
    by_cases h : xs.any (fun y => decide (key y = key x)) = true
    · simpa [h] using ih
    · simp only [h, Bool.false_eq_true, if_false, List.map_cons, List.nodup_cons]
      refine ⟨?_, ih⟩
      intro hmem
      rcases List.mem_map.mp hmem with ⟨y, hy, hk⟩
      have hy' : y ∈ xs := (dropDupKeepLast_sublist key xs).subset hy
      have : xs.any (fun y => decide (key y = key x)) = true :=
        List.any_eq_true.mpr ⟨y, hy', by simpa using hk⟩
      exact h this

theorem finLe_total (a b : FinRow) : finLe a b = true ∨ finLe b a = true := by
  unfold finLe
  by_cases hi : a.index = b.index
  · have hi' : b.index = a.index := hi.symm
    rw [if_pos hi, if_pos hi']
    by_cases hc : a.code = b.code
    · have hc' : b.code = a.code := hc.symm
      rw [if_pos hc, if_pos hc']
      cases a.date <;> cases b.date <;> simp <;> omega
    · have hc' : ¬ b.code = a.code := fun h => hc h.symm
      rw [if_neg hc, if_neg hc']
      exact strLe_total a.code b.code
  · have hi' : ¬ b.index = a.index := fun h => hi h.symm
    rw [if_neg hi, if_neg hi']
    exact yamlLe_total a.index b.index

theorem rowLe_total (a b : CanonicalRow) : rowLe a b = true ∨ rowLe b a = true := by
  unfold rowLe
  by_cases hi : a.index = b.index
  · have hi' : b.index = a.index := hi.symm
    rw [if_pos hi, if_pos hi']
    exact strLe_total a.code b.code
  · have hi' : ¬ b.index = a.index := fun h => hi h.symm
    rw [if_neg hi, if_neg hi']
    exact yamlLe_total a.index b.index

/-! ## Claim C1 -/

/-- C1: evaluation of build_canonical at the failing input.  With a dated
record (pbr 0.8) and an undated record (pbr 9.9) for the same index and code
pair, the deduplication sorts missing dates last and keeps the last row, so
the undated record survives and supplies the financial values, contrary to
the claim (and to the inline comment of the code) that the most recent dated
record survives. -/
theorem c1_undated_record_survives :
    build_canonical c1ConsDoc (some c1FinsDoc) =
      .ok [{ index := .str "yomiuri333", code := "1001", name := .str "Alpha",
             sector := .str "X", weight := some 1, date := none,
             pbr := some (99/10), roe := none, dy := none, market_cap := none }] := rfl

/-! ## Claim C2, counterexample -/

/-- C2 is false as stated: with both lt1 ratios present and equal (difference
exactly 0), the PBR family bullet lands in the weaknesses bucket, not in the
strengths bucket (the PBR branch tests a strict inequality, unlike the ROE,
yield and HHI branches). -/
theorem c2_counterexample :
    safe_get c2TiePbr "lt1" "yomiuri333" = some (1/2) ∧
    safe_get c2TiePbr "lt1" "topix" = some (1/2) ∧
    (derive_logic_summary c2TiePbr c2TieRoe c2TieDy c2TieHhi).strengths =
      [.roeStrength 5 5, .dyStrength 0, .hhiStrength (1/2)] ∧
    (derive_logic_summary c2TiePbr c2TieRoe c2TieDy c2TieHhi).weaknesses =
      [.pbrWeakness 0] := by
  simp +decide [derive_logic_summary, pbrBullets, roeBullets, dyBullets,
    hhiBullets, top10Bullets, safe_get, mlookup, c2TiePbr, c2TieRoe, c2TieDy,
    c2TieHhi, Option.join]

/-! ## Claim C3, counterexample -/

/-- C3 is false as stated: with the primary hhi value present and the
benchmark hhi value missing, the HHI family bullet lands in the strengths
bucket and the cautions bucket stays empty, although the claim routes every
family with a missing comparison value to cautions. -/
theorem c3_counterexample :
    safe_get c3Hhi "hhi" "topix" = none ∧
    (derive_logic_summary c3Pbr c3Roe c3Dy c3Hhi).cautions = [] ∧
    (derive_logic_summary c3Pbr c3Roe c3Dy c3Hhi).strengths =
      [.pbrStrength (1/10), .roeStrength 5 4, .dyStrength 1, .hhiStrength (3/10)] := by
  simp +decide [derive_logic_summary, pbrBullets, roeBullets, dyBullets,
    hhiBullets, top10Bullets, safe_get, mlookup, c3Pbr, c3Roe, c3Dy, c3Hhi,
    Option.join]
  norm_num

/-! ## Claim C4, counterexample -/

/-- C4 is false as stated: a constituents document that lists the same index
and code pair twice is accepted by build_canonical, and the output then
contains two rows with that pair. -/
theorem c4_counterexample :
    (build_canonical c4DupConsDoc (some c4FinsDoc)).map
        (fun t => t.map (fun r => (r.index, r.code))) =
      .ok [(.str "yomiuri333", "1001"), (.str "yomiuri333", "1001")] := rfl

/-! ## Claim C8, counterexample -/

/-- C8 is false as stated: a table holding the index and sector columns but
no weight column passes all validation of the sector-HHI module; on this
(empty) table the module returns normally, raising no data-validation
error. -/
theorem c8_counterexample :
    "weight" ∉ c8NoWeightT.cols ∧
    compute_concentration_metrics c8NoWeightT =
      .ok { hhi := [], top10_weight := [], constituents := [] } := ⟨by decide, rfl⟩

/-! ## Claim C10, counterexample -/

/-- C10 is false as stated: after an access returns a plain leaf value (here
the number 1.5 stored under key a), a further attribute or item access is
applied to that leaf and raises, so not every finite access chain through a
wrap_metrics accessor is raise-free. -/
theorem c10_counterexample :
    chainAccess (wrap_metrics (some (YDict.cons "a" (.num (3/2)) .nil)))
      ["a", "b"] = .error () := rfl

/-! ## Block lemmas for derive_logic_summary -/

theorem pbrBullets_shape (p : MDoc) :
    (∃ x, pbrBullets p = ([.pbrStrength x], [], [])) ∨
    (∃ x, pbrBullets p = ([], [.pbrWeakness x], [])) ∨
    pbrBullets p = ([], [], [.pbrCaution]) := by
  unfold pbrBullets
  cases safe_get p "lt1" "yomiuri333" with
  | none => simp
  | some y =>
    cases safe_get p "lt1" "topix" with
    | none => simp
    | some t =>
      by_cases h : y - t > 0
      · exact Or.inl ⟨y - t, by simp [h]⟩
      · exact Or.inr (Or.inl ⟨y - t, by simp [h]⟩)

theorem roeBullets_shape (r : MDoc) :
    (∃ x y, roeBullets r = ([.roeStrength x y], [], [])) ∨
    (∃ x, roeBullets r = ([], [.roeWeakness x], [])) ∨
    roeBullets r = ([], [], [.roeCaution]) := by
  unfold roeBullets
  cases safe_get r "median" "yomiuri333" with
  | none => simp
  | some y =>
    cases safe_get r "median" "topix" with
    | none => simp
    | some t =>
      by_cases h : y - t ≥ 0
      · exact Or.inl ⟨y, t, by simp [h]⟩
      · exact Or.inr (Or.inl ⟨y - t, by simp [h]⟩)

theorem dyBullets_shape (d : MDoc) :
    (∃ x, dyBullets d = ([.dyStrength x], [], [])) ∨
    (∃ x, dyBullets d = ([], [.dyWeakness x], [])) ∨
    dyBullets d = ([], [], [.dyCaution]) := by
  unfold dyBullets
  cases safe_get d "mean" "yomiuri333" with
  | none => simp
  | some y =>
    cases safe_get d "mean" "topix" with
    | none => simp
    | some t =>
      by_cases h : y - t ≥ 0
      · exact Or.inl ⟨y - t, by simp [h]⟩
      · exact Or.inr (Or.inl ⟨y - t, by simp [h]⟩)

theorem hhiBullets_shape (h : MDoc) :
    (∃ x, hhiBullets h = ([.hhiStrength x], [], [])) ∨
    (∃ x y, hhiBullets h = ([], [.hhiWeakness x y], [])) ∨
    hhiBullets h = ([], [], [.hhiCaution]) := by
  unfold hhiBullets
  cases safe_get h "hhi" "yomiuri333" with
  | none => simp
  | some y =>
    cases safe_get h "hhi" "topix" with
    | none => exact Or.inl ⟨y, by simp⟩
    | some t =>
      by_cases hgt : y > t
      · exact Or.inr (Or.inl ⟨y, t, by simp [hgt]⟩)
      · exact Or.inl ⟨y, by simp [hgt]⟩

theorem pbrBullets_missing (p : MDoc)
    (h : safe_get p "lt1" "yomiuri333" = none ∨ safe_get p "lt1" "topix" = none) :
    pbrBullets p = ([], [], [.pbrCaution]) := by
  rcases h with h | h
  · simp [pbrBullets, h]
  · cases h1 : safe_get p "lt1" "yomiuri333" <;> simp [pbrBullets, h1, h]

theorem roeBullets_missing (r : MDoc)
    (h : safe_get r "median" "yomiuri333" = none ∨ safe_get r "median" "topix" = none) :
    roeBullets r = ([], [], [.roeCaution]) := by
  rcases h with h | h
  · simp [roeBullets, h]
  · cases h1 : safe_get r "median" "yomiuri333" <;> simp [roeBullets, h1, h]

theorem dyBullets_missing (d : MDoc)
    (h : safe_get d "mean" "yomiuri333" = none ∨ safe_get d "mean" "topix" = none) :
    dyBullets d = ([], [], [.dyCaution]) := by
  rcases h with h | h
  · simp [dyBullets, h]
  · cases h1 : safe_get d "mean" "yomiuri333" <;> simp [dyBullets, h1, h]

theorem hhiBullets_primary_missing (h : MDoc)
    (hm : safe_get h "hhi" "yomiuri333" = none) :
    hhiBullets h = ([], [], [.hhiCaution]) := by
  simp [hhiBullets, hm]

theorem hhiBullets_bench_missing (h : MDoc) (v : ℚ)
    (h1 : safe_get h "hhi" "yomiuri333" = some v)
    (h2 : safe_get h "hhi" "topix" = none) :
    hhiBullets h = ([.hhiStrength v], [], []) := by
  simp [hhiBullets, h1, h2]

theorem pbrBullets_count_self (p : MDoc) :
    ((pbrBullets p).1.countP (fun b => b.fam == 0)
      + (pbrBullets p).2.1.countP (fun b => b.fam == 0)
      + (pbrBullets p).2.2.countP (fun b => b.fam == 0)) = 1 := by
  rcases pbrBullets_shape p with ⟨x, h⟩ | ⟨x, h⟩ | h <;> rw [h] <;>
    simp [List.countP_cons, Bullet.fam]

theorem pbrBullets_count_other (p : MDoc) (f : ℕ) (hf : f ≠ 0) :
    ((pbrBullets p).1.countP (fun b => b.fam == f)
      + (pbrBullets p).2.1.countP (fun b => b.fam == f)
      + (pbrBullets p).2.2.countP (fun b => b.fam == f)) = 0 := by
  rcases pbrBullets_shape p with ⟨x, h⟩ | ⟨x, h⟩ | h <;> rw [h] <;>
    simp [List.countP_cons, Bullet.fam, hf, Ne.symm hf]

theorem roeBullets_count_self (r : MDoc) :
    ((roeBullets r).1.countP (fun b => b.fam == 1)
      + (roeBullets r).2.1.countP (fun b => b.fam == 1)
      + (roeBullets r).2.2.countP (fun b => b.fam == 1)) = 1 := by
  rcases roeBullets_shape r with ⟨x, y, h⟩ | ⟨x, h⟩ | h <;> rw [h] <;>
    simp [List.countP_cons, Bullet.fam]

theorem roeBullets_count_other (r : MDoc) (f : ℕ) (hf : f ≠ 1) :
    ((roeBullets r).1.countP (fun b => b.fam == f)
      + (roeBullets r).2.1.countP (fun b => b.fam == f)
      + (roeBullets r).2.2.countP (fun b => b.fam == f)) = 0 := by
  rcases roeBullets_shape r with ⟨x, y, h⟩ | ⟨x, h⟩ | h <;> rw [h] <;>
    simp [List.countP_cons, Bullet.fam, hf, Ne.symm hf]

theorem dyBullets_count_self (d : MDoc) :
    ((dyBullets d).1.countP (fun b => b.fam == 2)
      + (dyBullets d).2.1.countP (fun b => b.fam == 2)
      + (dyBullets d).2.2.countP (fun b => b.fam == 2)) = 1 := by
  rcases dyBullets_shape d with ⟨x, h⟩ | ⟨x, h⟩ | h <;> rw [h] <;>
    simp [List.countP_cons, Bullet.fam]

theorem dyBullets_count_other (d : MDoc) (f : ℕ) (hf : f ≠ 2) :
    ((dyBullets d).1.countP (fun b => b.fam == f)
      + (dyBullets d).2.1.countP (fun b => b.fam == f)
      + (dyBullets d).2.2.countP (fun b => b.fam == f)) = 0 := by
  rcases dyBullets_shape d with ⟨x, h⟩ | ⟨x, h⟩ | h <;> rw [h] <;>
    simp [List.countP_cons, Bullet.fam, hf, Ne.symm hf]

theorem hhiBullets_count_self (h : MDoc) :
    ((hhiBullets h).1.countP (fun b => b.fam == 3)
      + (hhiBullets h).2.1.countP (fun b => b.fam == 3)
      + (hhiBullets h).2.2.countP (fun b => b.fam == 3)) = 1 := by
  rcases hhiBullets_shape h with ⟨x, hh⟩ | ⟨x, y, hh⟩ | hh <;> rw [hh] <;>
    simp [List.countP_cons, Bullet.fam]

theorem hhiBullets_count_other (h : MDoc) (f : ℕ) (hf : f ≠ 3) :
    ((hhiBullets h).1.countP (fun b => b.fam == f)
      + (hhiBullets h).2.1.countP (fun b => b.fam == f)
      + (hhiBullets h).2.2.countP (fun b => b.fam == f)) = 0 := by
  rcases hhiBullets_shape h with ⟨x, hh⟩ | ⟨x, y, hh⟩ | hh <;> rw [hh] <;>
    simp [List.countP_cons, Bullet.fam, hf, Ne.symm hf]

theorem top10Bullets_count (h : MDoc) (f : ℕ) (hf : f < 4) :
    (top10Bullets h).countP (fun b => b.fam == f) = 0 := by
  unfold top10Bullets
  split <;> simp [List.countP_cons, Bullet.fam] <;> omega

/-! ## Claim C2, amended theorem -/

/-- C2 (amended): with both sides present and the difference exactly 0, the
ROE, yield and HHI families place their bullet in the strengths bucket, but
the PBR family, whose branch tests a strict inequality, places its tie
bullet in the weaknesses bucket. -/
theorem c2_tie_placement (pbr roe dy hhi : MDoc) (a b c d : ℚ)
    (hp1 : safe_get pbr "lt1" "yomiuri333" = some a)
    (hp2 : safe_get pbr "lt1" "topix" = some a)
    (hr1 : safe_get roe "median" "yomiuri333" = some b)
    (hr2 : safe_get roe "median" "topix" = some b)
    (hd1 : safe_get dy "mean" "yomiuri333" = some c)
    (hd2 : safe_get dy "mean" "topix" = some c)
    (hh1 : safe_get hhi "hhi" "yomiuri333" = some d)
    (hh2 : safe_get hhi "hhi" "topix" = some d) :
    Bullet.roeStrength b b ∈ (derive_logic_summary pbr roe dy hhi).strengths ∧
    Bullet.dyStrength 0 ∈ (derive_logic_summary pbr roe dy hhi).strengths ∧
    Bullet.hhiStrength d ∈ (derive_logic_summary pbr roe dy hhi).strengths ∧
    Bullet.pbrWeakness 0 ∈ (derive_logic_summary pbr roe dy hhi).weaknesses := by
  simp [derive_logic_summary, pbrBullets, roeBullets, dyBullets, hhiBullets,
    hp1, hp2, hr1, hr2, hd1, hd2, hh1, hh2]

/-- Witness for the amended C2 theorem at the concrete tie documents. -/
theorem c2_tie_placement_witness :
    Bullet.roeStrength 5 5 ∈
      (derive_logic_summary c2TiePbr c2TieRoe c2TieDy c2TieHhi).strengths ∧
    Bullet.dyStrength 0 ∈
      (derive_logic_summary c2TiePbr c2TieRoe c2TieDy c2TieHhi).strengths ∧
    Bullet.hhiStrength (1/2) ∈
      (derive_logic_summary c2TiePbr c2TieRoe c2TieDy c2TieHhi).strengths ∧
    Bullet.pbrWeakness 0 ∈
      (derive_logic_summary c2TiePbr c2TieRoe c2TieDy c2TieHhi).weaknesses :=
  c2_tie_placement c2TiePbr c2TieRoe c2TieDy c2TieHhi (1/2) 5 2 (1/2)
    rfl rfl rfl rfl rfl rfl rfl rfl

/-! ## Claim C3, amended theorem -/

/-- C3 (amended): every metric family contributes exactly one bullet to
exactly one bucket; a missing comparison value routes the PBR, ROE and yield
families to cautions, while the HHI family goes to cautions only when the
primary value is missing (a present primary with a missing benchmark goes to
strengths); the extra top-10 caution appears exactly when the top-10
concentration weight of the primary index is missing. -/
theorem c3_bucket_classification (pbr roe dy hhi : MDoc) :
    (∀ f : ℕ, f < 4 →
      (((derive_logic_summary pbr roe dy hhi).strengths
        ++ (derive_logic_summary pbr roe dy hhi).weaknesses
        ++ (derive_logic_summary pbr roe dy hhi).cautions).countP
          (fun b => b.fam == f)) = 1) ∧
    ((safe_get pbr "lt1" "yomiuri333" = none ∨ safe_get pbr "lt1" "topix" = none) →
      Bullet.pbrCaution ∈ (derive_logic_summary pbr roe dy hhi).cautions) ∧
    ((safe_get roe "median" "yomiuri333" = none ∨ safe_get roe "median" "topix" = none) →
      Bullet.roeCaution ∈ (derive_logic_summary pbr roe dy hhi).cautions) ∧
    ((safe_get dy "mean" "yomiuri333" = none ∨ safe_get dy "mean" "topix" = none) →
      Bullet.dyCaution ∈ (derive_logic_summary pbr roe dy hhi).cautions) ∧
    (safe_get hhi "hhi" "yomiuri333" = none →
      Bullet.hhiCaution ∈ (derive_logic_summary pbr roe dy hhi).cautions) ∧
    (∀ v : ℚ, safe_get hhi "hhi" "yomiuri333" = some v →
      safe_get hhi "hhi" "topix" = none →
      Bullet.hhiStrength v ∈ (derive_logic_summary pbr roe dy hhi).strengths) ∧
    (Bullet.top10Caution ∈ (derive_logic_summary pbr roe dy hhi).cautions ↔
      safe_get hhi "top10_weight" "yomiuri333" = none) := by
  refine ⟨?_, ?_, ?_, ?_, ?_, ?_, ?_⟩
  · intro f hf
    have ht0 := top10Bullets_count hhi 0 (by omega)
    have ht1 := top10Bullets_count hhi 1 (by omega)
    have ht2 := top10Bullets_count hhi 2 (by omega)
    have ht3 := top10Bullets_count hhi 3 (by omega)
    simp only [derive_logic_summary, List.countP_append]
    interval_cases f
    · have h1 := pbrBullets_count_self pbr
      have h2 := roeBullets_count_other roe 0 (by omega)
      have h3 := dyBullets_count_other dy 0 (by omega)
      have h4 := hhiBullets_count_other hhi 0 (by omega)
      omega
    · have h1 := pbrBullets_count_other pbr 1 (by omega)
      have h2 := roeBullets_count_self roe
      have h3 := dyBullets_count_other dy 1 (by omega)
      have h4 := hhiBullets_count_other hhi 1 (by omega)
      omega
    · have h1 := pbrBullets_count_other pbr 2 (by omega)
      have h2 := roeBullets_count_other roe 2 (by omega)
      have h3 := dyBullets_count_self dy
      have h4 := hhiBullets_count_other hhi 2 (by omega)
      omega
    · have h1 := pbrBullets_count_other pbr 3 (by omega)
      have h2 := roeBullets_count_other roe 3 (by omega)
      have h3 := dyBullets_count_other dy 3 (by omega)
      have h4 := hhiBullets_count_self hhi
      omega
  · intro h
    simp [derive_logic_summary, pbrBullets_missing pbr h]
  · intro h
    simp [derive_logic_summary, roeBullets_missing roe h]
  · intro h
    simp [derive_logic_summary, dyBullets_missing dy h]
  · intro h
    simp [derive_logic_summary, hhiBullets_primary_missing hhi h]
  · intro v h1 h2
    simp [derive_logic_summary, hhiBullets_bench_missing hhi v h1 h2]
  · constructor
    · intro hmem
      by_contra hnone
      rcases Option.ne_none_iff_exists'.mp hnone with ⟨w, hw⟩
      have : top10Bullets hhi = [] := by simp [top10Bullets, hw]
      rcases pbrBullets_shape pbr with ⟨x, hp⟩ | ⟨x, hp⟩ | hp <;>
        rcases roeBullets_shape roe with ⟨x2, y2, hr⟩ | ⟨x2, hr⟩ | hr <;>
        rcases dyBullets_shape dy with ⟨x3, hd⟩ | ⟨x3, hd⟩ | hd <;>
        rcases hhiBullets_shape hhi with ⟨x4, hh⟩ | ⟨x4, y4, hh⟩ | hh <;>
        simp [derive_logic_summary, hp, hr, hd, hh, this] at hmem
    · intro hnone
      simp [derive_logic_summary, top10Bullets, hnone]

/-- Witness for the amended C3 theorem: at the concrete documents whose
benchmark hhi value is missing, the HHI bullet goes to strengths. -/
theorem c3_bucket_classification_witness :
    Bullet.hhiStrength (3/10) ∈
      (derive_logic_summary c3Pbr c3Roe c3Dy c3Hhi).strengths :=
  (c3_bucket_classification c3Pbr c3Roe c3Dy c3Hhi).2.2.2.2.2.1 (3/10) rfl rfl

/-! ## Structure lemmas for build_canonical -/

theorem mergeRow_index (c : ConsRow) (f? : Option FinRow) :
    (mergeRow c f?).index = c.index := rfl

theorem mergeRow_code (c : ConsRow) (f? : Option FinRow) :
    (mergeRow c f?).code = c.code := rfl

theorem build_canonical_ok (consRaw : Yaml) (finsRaw : Option Yaml)
    (t : List CanonicalRow) (h : build_canonical consRaw finsRaw = .ok t) :
    ∃ cons fins, normalize_constituents consRaw = .ok cons ∧
      normalize_financials finsRaw = .ok fins ∧ fins ≠ [] ∧
      t = insertionSortBy rowLe (cons.map (fun c =>
        mergeRow c ((dropDupKeepLast finKey (insertionSortBy finLe fins)).find?
          (fun f => decide (f.index = c.index ∧ f.code = c.code))))) := by
  unfold build_canonical at h
  cases hc : normalize_constituents consRaw with
  | error e => rw [hc] at h; exact Except.noConfusion h
  | ok cons =>
    rw [hc] at h
    dsimp only at h
    cases hf : normalize_financials finsRaw with
    | error e => rw [hf] at h; exact Except.noConfusion h
    | ok fins =>
      rw [hf] at h
      dsimp only at h
      by_cases he : fins.isEmpty
      · rw [if_pos he] at h; exact Except.noConfusion h
      · rw [if_neg he] at h
        injection h with h'
        refine ⟨cons, fins, rfl, rfl, ?_, h'.symm⟩
        intro hnil
        exact he (by simp [hnil])

/-! ## Claim C4, amended theorem -/

/-- C4 (amended): provided the normalised constituent records carry pairwise
distinct index and code pairs, the canonical table built from an accepted
pair of documents has exactly one row per index and code pair, and its rows
are sorted by index and code.  (Without the distinctness proviso the claim
fails: build_canonical accepts duplicated constituent entries and emits one
output row per occurrence.) -/
theorem c4_unique_sorted (consRaw : Yaml) (finsRaw : Option Yaml)
    (cons : List ConsRow) (t : List CanonicalRow)
    (hc : normalize_constituents consRaw = .ok cons)
    (hnd : (cons.map (fun c => (c.index, c.code))).Nodup)
    (ht : build_canonical consRaw finsRaw = .ok t) :
    (t.map (fun r => (r.index, r.code))).Nodup ∧
    t.Chain' (fun a b => rowLe a b = true) := by
  obtain ⟨cons', fins, hc', hf, hne, hteq⟩ := build_canonical_ok _ _ _ ht
  rw [hc] at hc'
  injection hc' with hcc
  subst hcc
  subst hteq
  constructor
  · have hperm := (insertionSortBy_perm rowLe (cons.map (fun c =>
      mergeRow c ((dropDupKeepLast finKey (insertionSortBy finLe fins)).find?
        (fun f => decide (f.index = c.index ∧ f.code = c.code)))))).map
        (fun r => (r.index, r.code))
    rw [List.Perm.nodup_iff hperm, List.map_map]
    exact hnd
  · exact insertionSortBy_chain rowLe rowLe_total _

/-- Witness for the amended C4 theorem at a well-formed two-index document:
the concrete canonical table is key-unique and sorted. -/
theorem c4_unique_sorted_witness :
    (([{ index := .str "topix", code := "2002", name := .str "B",
         sector := .str "Y", weight := some 2, date := none, pbr := none,
         roe := none, dy := none, market_cap := none },
       { index := .str "yomiuri333", code := "1001", name := .str "A",
         sector := .str "X", weight := some 1, date := some 20240101,
         pbr := some 1, roe := none, dy := none, market_cap := none }] :
        List CanonicalRow).map (fun r => (r.index, r.code))).Nodup ∧
    ([{ index := .str "topix", code := "2002", name := .str "B",
        sector := .str "Y", weight := some 2, date := none, pbr := none,
        roe := none, dy := none, market_cap := none },
      { index := .str "yomiuri333", code := "1001", name := .str "A",
        sector := .str "X", weight := some 1, date := some 20240101,
        pbr := some 1, roe := none, dy := none, market_cap := none }] :
        List CanonicalRow).Chain' (fun a b => rowLe a b = true) :=
  c4_unique_sorted c4GoodConsDoc (some c4FinsDoc)
    [{ index := .str "topix", code := "2002", name := .str "B",
       sector := .str "Y", weight := .num 2 },
     { index := .str "yomiuri333", code := "1001", name := .str "A",
       sector := .str "X", weight := .num 1 }]
    _ rfl (by decide) rfl

/-! ## Counting lemmas for the statistics modules -/

theorem group_value_count (t : ATable) (k : Yaml) (g : ARow → Yaml) :
    ((groupRows t k).filterMap (fun r => toNumeric (g r))).length =
      t.rows.countP (fun r => decide (r.index = k) && (toNumeric (g r)).isSome) := by
  rw [List.length_filterMap_eq_countP]
  unfold groupRows
  rw [List.countP_filter]
  congr 1
  funext r
  exact Bool.and_comm _ _

theorem group_row_count (t : ATable) (k : Yaml) :
    (groupRows t k).length = t.rows.countP (fun r => decide (r.index = k)) := by
  unfold groupRows
  exact (List.countP_eq_length_filter _ _).symm

/-! ## Claim C5 -/

/-- C5: for every table accepted by the three statistics modules and every
index group, the count reported by the PBR module equals the number of rows
of the group with a non-missing coerced pbr value, the count reported by the
ROE module equals the number of rows with a non-missing coerced roe value,
and the constituent count reported by the sector-HHI module equals the
number of rows of the group. -/
theorem c5_reported_counts (t : ATable)
    (hi : "index" ∈ t.cols) (hp : "pbr" ∈ t.cols) (hr : "roe" ∈ t.cols)
    (hs : "sector" ∈ t.cols) (hw : "weight" ∈ t.cols) :
    (compute_pbr_stats t).map PbrMetrics.count =
      .ok ((groupKeys t).map (fun k =>
        (k, t.rows.countP (fun r => decide (r.index = k) && (toNumeric r.pbr).isSome)))) ∧
    (compute_roe_stats t).map RoeMetrics.count =
      .ok ((groupKeys t).map (fun k =>
        (k, t.rows.countP (fun r => decide (r.index = k) && (toNumeric r.roe).isSome)))) ∧
    (compute_concentration_metrics t).map HhiMetrics.constituents =
      .ok ((groupKeys t).map (fun k =>
        (k, t.rows.countP (fun r => decide (r.index = k))))) := by
  refine ⟨?_, ?_, ?_⟩
  · unfold compute_pbr_stats
    rw [if_neg (by simpa using hi), if_neg (by simpa using hp)]
    simp only [Except.map]
    have hfun : (fun k => (k, (pbrValues (groupRows t k)).length)) =
        (fun k => (k, t.rows.countP
          (fun r => decide (r.index = k) && (toNumeric r.pbr).isSome))) := by
      funext k
      simp only [pbrValues]
      rw [group_value_count]
    rw [hfun]
  · unfold compute_roe_stats
    rw [if_neg (by simpa using hi), if_neg (by simpa using hr)]
    simp only [Except.map]
    have hfun : (fun k => (k, (roeValues (groupRows t k)).length)) =
        (fun k => (k, t.rows.countP
          (fun r => decide (r.index = k) && (toNumeric r.roe).isSome))) := by
      funext k
      simp only [roeValues]
      rw [group_value_count]
    rw [hfun]
  · unfold compute_concentration_metrics
    rw [if_neg (by simpa using hi), if_neg (by simpa using hs)]
    rw [if_neg (by simp [hw])]
    simp only [Except.map]
    have hfun : (fun k => (k, (groupRows t k).length)) =
        (fun k => (k, t.rows.countP (fun r => decide (r.index = k)))) := by
      funext k
      rw [group_row_count]
    rw [hfun]

/-- Witness for C5 at a concrete two-row table: one non-missing pbr value,
one parseable roe value, two constituents. -/
theorem c5_reported_counts_witness :
    (compute_pbr_stats c5T).map PbrMetrics.count = .ok [(.str "a", 1)] ∧
    (compute_roe_stats c5T).map RoeMetrics.count = .ok [(.str "a", 1)] ∧
    (compute_concentration_metrics c5T).map HhiMetrics.constituents =
      .ok [(.str "a", 2)] := by
  obtain ⟨h1, h2, h3⟩ := c5_reported_counts c5T (by decide) (by decide) (by decide)
    (by decide) (by decide)
  exact ⟨h1.trans (by rfl), h2.trans (by rfl), h3.trans (by rfl)⟩

/-! ## Sum lemmas for the concentration module -/

theorem nodup_sum_toFinset (l : List Yaml) (f : Yaml → ℚ) (h : l.Nodup) :
    l.toFinset.sum f = (l.map f).sum := by
  induction l with
  | nil => simp
  | cons x xs ih =>
    rcases List.nodup_cons.mp h with ⟨hx, hxs⟩
    rw [List.toFinset_cons, Finset.sum_insert (by simpa using hx), List.map_cons,
      List.sum_cons, ih hxs]

theorem list_toFinset_dedup (l : List Yaml) : l.dedup.toFinset = l.toFinset := by
  ext a
  simp [List.mem_dedup]

theorem sum_dedup_eq_sum_toFinset (l : List Yaml) (f : Yaml → ℚ) :
    (l.dedup.map f).sum = ∑ s ∈ l.toFinset, f s := by
  rw [← list_toFinset_dedup, nodup_sum_toFinset _ _ (List.nodup_dedup l)]

/-! ## Claim C6 -/

/-- C6: for every table accepted by the sector-HHI module and every index
group, the reported hhi value is the sum, over the distinct sector labels of
the group (missing sectors bucketed as Unknown), of the square of the total
resolved normalised weight carried by rows of that sector. -/
theorem c6_hhi_value (t : ATable)
    (hi : "index" ∈ t.cols) (hs : "sector" ∈ t.cols) (hw : "weight" ∈ t.cols) :
    (compute_concentration_metrics t).map HhiMetrics.hhi =
      .ok ((groupKeys t).map (fun k =>
        (k, ∑ s ∈ (sectorsOf (groupRows t k)).toFinset,
          ((((sectorsOf (groupRows t k)).zip (resolve_weights (groupRows t k))).filter
            (fun p => decide (p.1 = s))).map Prod.snd).sum ^ 2))) := by
  unfold compute_concentration_metrics
  rw [if_neg (by simpa using hi), if_neg (by simpa using hs)]
  rw [if_neg (by simp [hw])]
  simp only [Except.map]
  have hfun : (fun k => (k, hhiOf (groupRows t k))) =
      (fun k => (k, ∑ s ∈ (sectorsOf (groupRows t k)).toFinset,
        ((((sectorsOf (groupRows t k)).zip (resolve_weights (groupRows t k))).filter
          (fun p => decide (p.1 = s))).map Prod.snd).sum ^ 2)) := by
    funext k
    unfold hhiOf
    rw [sum_dedup_eq_sum_toFinset]
  rw [hfun]

/-- Witness for C6 at a concrete three-row table with two sector labels, one
of them reached through the Unknown bucket. -/
theorem c6_hhi_value_witness :
    (compute_concentration_metrics c6T).map HhiMetrics.hhi =
      .ok ((groupKeys c6T).map (fun k =>
        (k, ∑ s ∈ (sectorsOf (groupRows c6T k)).toFinset,
          ((((sectorsOf (groupRows c6T k)).zip (resolve_weights (groupRows c6T k))).filter
            (fun p => decide (p.1 = s))).map Prod.snd).sum ^ 2))) :=
  c6_hhi_value c6T (by decide) (by decide) (by decide)

/-! ## Claim C7 -/

/-- Auxiliary: a sum of pointwise quotients is the quotient of the sum. -/
theorem sum_map_div (l : List ℚ) (c : ℚ) :
    (l.map (fun x => x / c)).sum = l.sum / c := by
  induction l with
  | nil => simp
  | cons x xs ih => simp [ih, add_div]

/-- C7: the weights resolved by the sector-HHI module for any non-empty
group sum to one: the stated weight column (missing entries as zero) is used
when any weight is present, equal weights otherwise, with equal weighting
as fallback when the total is not positive, and the weights are divided by
their total. -/
theorem c7_resolved_weights_sum (rows : List ARow) (h : rows ≠ []) :
    (resolve_weights rows).sum = 1 := by
  have hlen : (0 : ℚ) < (rows.length : ℚ) := by
    have : 0 < rows.length := List.length_pos.mpr h
    exact_mod_cast this
  have hones : ((rows.map (fun _ => (1 : ℚ))).sum) = (rows.length : ℚ) := by
    rw [List.map_const']
    simp [List.sum_replicate, nsmul_eq_mul]
  unfold resolve_weights
  by_cases hany : (rows.map (fun r => toNumeric r.weight)).any (fun w => w.isSome)
  · simp only [hany, if_true]
    by_cases htot : ((rows.map (fun r => toNumeric r.weight)).map
        (fun w => w.getD 0)).sum ≤ 0
    · simp only [htot, if_true]
      rw [sum_map_div, hones]
      exact div_self (ne_of_gt hlen)
    · simp only [htot, if_false]
      rw [sum_map_div]
      exact div_self (fun hz => htot (le_of_eq hz))
  · simp only [hany, Bool.false_eq_true, if_false]
    have hpos : ¬ ((rows.map (fun _ => (1 : ℚ))).sum ≤ 0) := by
      rw [hones]
      exact not_le.mpr hlen
    simp only [hpos, if_false]
    rw [sum_map_div, hones]
    exact div_self (ne_of_gt hlen)

/-- Witness for C7 at a concrete two-row group with one stated and one
missing weight. -/
theorem c7_resolved_weights_sum_witness :
    (resolve_weights c7Rows).sum = 1 :=
  c7_resolved_weights_sum c7Rows (by decide)

/-! ## Claim C8, amended theorem -/

/-- C8 (amended): each statistics module raises its data-validation error
exactly when the table lacks the index column or the value column the module
checks, namely pbr, roe and sector respectively; the weight column is not
validated by the sector-HHI module (its absence surfaces, on a table with at
least one group, as a non-validation attribute error instead). -/
theorem c8_validation_errors (t : ATable) :
    ((∃ c, compute_pbr_stats t = .error (.missingColumn c)) ↔
      ("index" ∉ t.cols ∨ "pbr" ∉ t.cols)) ∧
    ((∃ c, compute_roe_stats t = .error (.missingColumn c)) ↔
      ("index" ∉ t.cols ∨ "roe" ∉ t.cols)) ∧
    ((∃ c, compute_concentration_metrics t = .error (.missingColumn c)) ↔
      ("index" ∉ t.cols ∨ "sector" ∉ t.cols)) := by
  refine ⟨?_, ?_, ?_⟩
  · unfold compute_pbr_stats
    by_cases h1 : "index" ∉ t.cols
    · simp [h1]
    · by_cases h2 : "pbr" ∉ t.cols <;> simp [h1, h2]
  · unfold compute_roe_stats
    by_cases h1 : "index" ∉ t.cols
    · simp [h1]
    · by_cases h2 : "roe" ∉ t.cols <;> simp [h1, h2]
  · unfold compute_concentration_metrics
    by_cases h1 : "index" ∉ t.cols
    · simp [h1]
    · by_cases h2 : "sector" ∉ t.cols
      · simp [h1, h2]
      · simp only [h1, h2, if_false]
        split <;> simp [h1, h2]

/-- Witness for the amended C8 theorem: a table with no columns makes the
PBR module raise a data-validation error. -/
theorem c8_validation_errors_witness :
    ∃ c, compute_pbr_stats c8EmptyT = .error (.missingColumn c) :=
  (c8_validation_errors c8EmptyT).1.mpr (Or.inl (by decide))

/-! ## Lemmas for claim C9 -/

theorem toList_ofList (l : List Yaml) : (YList.ofList l).toList = l := by
  induction l with
  | nil => rfl
  | cons x xs ih => simp [YList.ofList, YList.toList, ih]

theorem finEntries_ofList (es : List Yaml) : finEntries (Yaml.ofList es) = .ok es := by
  simp [finEntries, Yaml.ofList, toList_ofList]

theorem normalize_financials_ofList (es : List Yaml) :
    normalize_financials (some (Yaml.ofList es)) =
      .ok (es.filterMap finRowOfEntry) := by
  unfold normalize_financials
  rw [show Yaml.ofList es = .list (YList.ofList es) from rfl]
  dsimp only
  rw [show finEntries (.list (YList.ofList es)) = .ok es from finEntries_ofList es]

theorem build_canonical_isOk_list (consRaw : Yaml) (es : List Yaml) :
    (build_canonical consRaw (some (Yaml.ofList es))).isOk =
      ((normalize_constituents consRaw).isOk
        && !(es.filterMap finRowOfEntry).isEmpty) := by
  unfold build_canonical
  rw [normalize_financials_ofList]
  cases normalize_constituents consRaw with
  | error e => rfl
  | ok cons =>
    dsimp only
    by_cases he : (es.filterMap finRowOfEntry).isEmpty
    · rw [if_pos he, he]
      rfl
    · rw [if_neg he]
      have he2 : (es.filterMap finRowOfEntry).isEmpty = false :=
        Bool.eq_false_iff.mpr he
      simp [Except.isOk, Except.toBool, he2]

theorem finRowOfEntry_isSome_setDictField (e : Yaml) (c : String) (v : Yaml) :
    (finRowOfEntry (setDictField e c v)).isSome = (finRowOfEntry e).isSome := by
  cases e <;> simp [setDictField, finRowOfEntry]

theorem filterMap_modifyAt_isEmpty (es : List Yaml) (i : ℕ) (c : String) (v : Yaml) :
    ((modifyAt i (fun e => setDictField e c v) es).filterMap finRowOfEntry).isEmpty
      = (es.filterMap finRowOfEntry).isEmpty := by
  induction es generalizing i with
  | nil => simp [modifyAt]
  | cons x xs ih =>
    cases i with
    | zero =>
      simp only [modifyAt]
      have hsome := finRowOfEntry_isSome_setDictField x c v
      cases hx : finRowOfEntry (setDictField x c v) <;>
        cases hx2 : finRowOfEntry x <;>
        rw [hx, hx2] at hsome <;>
        simp_all [List.filterMap_cons, hx, hx2]
    | succ n =>
      simp only [modifyAt]
      cases hx : finRowOfEntry x <;>
        simp [List.filterMap_cons, hx, ih n]

theorem build_canonical_cells (consRaw : Yaml) (finsRaw : Option Yaml)
    (t : List CanonicalRow) (fins : List FinRow) (cons : List ConsRow)
    (ht : build_canonical consRaw finsRaw = .ok t)
    (hf : normalize_financials finsRaw = .ok fins)
    (hcons : normalize_constituents consRaw = .ok cons) :
    ∀ r ∈ t, ∃ c0, c0 ∈ cons ∧ r.index = c0.index ∧ r.code = c0.code ∧
      r.pbr = matchedNumeric fins r FinRow.pbr ∧
      r.roe = matchedNumeric fins r FinRow.roe ∧
      r.dy = matchedNumeric fins r FinRow.dy ∧
      r.market_cap = matchedNumeric fins r FinRow.market_cap ∧
      r.weight = mergedWeight fins r c0.weight := by
  obtain ⟨cons2, fins2, hc, hf2, hne, hteq⟩ := build_canonical_ok _ _ _ ht
  rw [hf] at hf2
  injection hf2 with hff
  subst hff
  rw [hcons] at hc
  injection hc with hcc
  subst hcc
  subst hteq
  intro r hr
  have hr2 : r ∈ cons.map (fun c =>
      mergeRow c ((dropDupKeepLast finKey (insertionSortBy finLe fins)).find?
        (fun f => decide (f.index = c.index ∧ f.code = c.code)))) :=
    ((insertionSortBy_perm _ _).mem_iff).mp hr
  rcases List.mem_map.mp hr2 with ⟨c0, hc0, hrc⟩
  subst hrc
  refine ⟨c0, hc0, rfl, rfl, ?_⟩
  unfold matchedNumeric mergedWeight
  rw [mergeRow_index, mergeRow_code]
  cases hfind : (dropDupKeepLast finKey (insertionSortBy finLe fins)).find?
      (fun f => decide (f.index = c0.index ∧ f.code = c0.code)) with
  | none => simp [mergeRow, hfind]
  | some f0 => simp [mergeRow, hfind]

/-! ## Claim C9 -/

/-- C9: whether build_canonical accepts its input never depends on the value
stored in a numeric column of a financial record (replacing any such value,
by an unparseable string or anything else, preserves acceptance); every
pbr, roe, dy and market_cap cell of an accepted canonical row is the
to_numeric coercion of the corresponding raw cell of the surviving financial
record, the weight cell is the coercion of the constituent weight with the
surviving financial weight as fallback, and the coercion maps every
unparseable string to a missing value. -/
theorem c9_unparseable_numeric_is_missing (consRaw : Yaml) (es : List Yaml)
    (i : ℕ) (c : String) (v : Yaml)
    (hc : c ∈ ["pbr", "roe", "dy", "market_cap", "weight"]) :
    ((build_canonical consRaw (some (Yaml.ofList
        (modifyAt i (fun e => setDictField e c v) es)))).isOk
      = (build_canonical consRaw (some (Yaml.ofList es))).isOk) ∧
    (∀ t fins cons, build_canonical consRaw (some (Yaml.ofList es)) = .ok t →
      normalize_financials (some (Yaml.ofList es)) = .ok fins →
      normalize_constituents consRaw = .ok cons →
      ∀ r ∈ t, ∃ c0, c0 ∈ cons ∧ r.index = c0.index ∧ r.code = c0.code ∧
        r.pbr = matchedNumeric fins r FinRow.pbr ∧
        r.roe = matchedNumeric fins r FinRow.roe ∧
        r.dy = matchedNumeric fins r FinRow.dy ∧
        r.market_cap = matchedNumeric fins r FinRow.market_cap ∧
        r.weight = mergedWeight fins r c0.weight) ∧
    (∀ s : String, parseQ s = none → toNumeric (.str s) = none) := by
  refine ⟨?_, ?_, ?_⟩
  · rw [build_canonical_isOk_list, build_canonical_isOk_list,
      filterMap_modifyAt_isEmpty]
  · intro t fins cons ht hf hcons
    exact build_canonical_cells _ _ _ _ _ ht hf hcons
  · intro s hs
    simp [toNumeric, hs]

/-- Witness for C9: replacing the pbr value of the concrete financial entry
by a garbage string preserves acceptance of the concrete input. -/
theorem c9_unparseable_numeric_is_missing_witness :
    (build_canonical c9ConsDoc (some (Yaml.ofList
        (modifyAt 0 (fun e => setDictField e "pbr" (.str "zzz")) c9Entries)))).isOk
      = (build_canonical c9ConsDoc (some (Yaml.ofList c9Entries))).isOk :=
  (c9_unparseable_numeric_is_missing c9ConsDoc c9Entries 0 "pbr" (.str "zzz")
    (by decide)).1

/-! ## Claim C10, amended theorem -/

theorem chainAccess_missing (ks : List String) :
    chainAccess .missing ks = .ok .missing := by
  induction ks with
  | nil => rfl
  | cons k ks ih => simpa [chainAccess, pyAccess] using ih

theorem chainAccess_ok_or_leaf (v : PyVal) (ks : List String) :
    (chainAccess v ks).isOk = true ∨
      ∃ n l, chainAccess v (ks.take n) = .ok (.leaf l) := by
  induction ks generalizing v with
  | nil => exact Or.inl rfl
  | cons k ks ih =>
    cases v with
    | leaf l => exact Or.inr ⟨0, l, rfl⟩
    | missing =>
      rcases ih .missing with h | ⟨n, l, h⟩
      · exact Or.inl (by simpa [chainAccess, pyAccess] using h)
      · exact Or.inr ⟨n + 1, l, by simpa [chainAccess, pyAccess] using h⟩
    | accessor d =>
      have hstep : ∃ v', pyAccess (.accessor d) k = .ok v' := by
        unfold pyAccess
        dsimp only
        rcases hl : d.lookup k with _ | w
        · exact ⟨.missing, rfl⟩
        · cases w <;> exact ⟨_, rfl⟩
      rcases hstep with ⟨v', hv'⟩
      rcases ih v' with h | ⟨n, l, h⟩
      · exact Or.inl (by simpa [chainAccess, hv'] using h)
      · exact Or.inr ⟨n + 1, l, by simpa [chainAccess, hv'] using h⟩

/-- C10 (amended): accesses through a wrap_metrics accessor never raise as
long as no access is applied to a plain non-mapping, non-null leaf value
(such an access is the only way a chain fails): a single access on an
accessor always succeeds, wrapping nested mappings, returning other leaf
values unchanged and turning absent or null entries into the MissingValue
sentinel, which is falsy, stringifies to the empty string and returns itself
under every further access chain. -/
theorem c10_accessor_access_safety :
    (∀ (d : Option YDict) (ks : List String),
      (chainAccess (wrap_metrics d) ks).isOk = true ∨
        ∃ n l, chainAccess (wrap_metrics d) (ks.take n) = .ok (.leaf l)) ∧
    (∀ (d : YDict) (k : String), pyAccess (.accessor d) k =
      .ok (match d.lookup k with
           | some (.dict xs) => .accessor xs
           | some .null => .missing
           | none => .missing
           | some w => .leaf w)) ∧
    (∀ ks : List String, chainAccess .missing ks = .ok .missing) ∧
    (pyValTruthy .missing = false ∧ pyValStr .missing = "") := by
  refine ⟨?_, ?_, ?_, rfl, rfl⟩
  · intro d ks
    exact chainAccess_ok_or_leaf (wrap_metrics d) ks
  · intro d k
    unfold pyAccess
    dsimp only
    rcases hl : d.lookup k with _ | w
    · rfl
    · cases w <;> rfl
  · exact chainAccess_missing
